import Mathlib

/-!
# Verification of the MME edge-learning and tiering core

Shallow embedding of the algorithmic core of `mme-tagmaker-service`:

* `app/jobs/edge_learning.py` — `EdgeLearningJob`: EMA-based edge weight
  updates from pack acceptance/rejection events, with top-M pruning.
* `app/services/tiering.py` — hotness scoring, tier determination, and the
  tag rebalancing sweep.

Conventions of the embedding:

* Python `float` arithmetic is embedded as exact rational arithmetic (`ℚ`).
* A Python `dict` built by `_get_current_edges` (insertion-ordered) is
  embedded as an association list `List (String × ℚ)`; `dict.get`/`dict[k]=v`
  become `dict_get`/`dict_set` below, preserving insertion order.
* The MongoDB `tag_edges` collection for one organization is embedded as a
  total map `DB : String → List (String × ℚ)` from a tag to the stored edge
  list of its document (a missing document is the empty list, exactly what
  `_get_current_edges` returns for it).  The constant metadata fields of a
  stored edge (`facetSrc`, `facetDst`, `ts`) play no role in any property
  and are not carried.
* Python's `sorted(..., key=weight, reverse=True)` is a stable descending
  sort by weight; it is embedded as `List.insertionSort` with the relation
  `wge` (weight greater-or-equal), which is likewise stable.
* Event retrieval (`_get_recent_pack_events`: the org/window Mongo query) is
  external I/O; `run` is embedded as acting on the per-organization event
  lists that the query returns.
-/

namespace MME

/-- Configuration of `EdgeLearningJob.__init__` (environment variables
`MME_LEARN_ETA`, `MME_LEARN_R`, `MME_LEARN_D`, `MME_LEARN_WMAX`,
`MME_MAX_EDGES_PER_TAG`).  Defaults: eta=0.05, r=0.03, d=0.01, w_max=1.0,
max_edges_per_tag=32. -/
structure Config where
  eta : ℚ
  r : ℚ
  d : ℚ
  w_max : ℚ
  max_edges_per_tag : ℕ

/-- The default configuration values from `EdgeLearningJob.__init__`. -/
def default_config : Config := ⟨5/100, 3/100, 1/100, 1, 32⟩

/-- `EdgeLearningJob._clip_weight`: `max(0.0, min(weight, self.w_max))`. -/
def clip_weight (cfg : Config) (weight : ℚ) : ℚ :=
  max 0 (min weight cfg.w_max)

/-- `EdgeLearningJob._update_edge_weight`:
```
reward = self.r if accepted else -self.d
new_weight = current_weight + reward
clipped_weight = self._clip_weight(new_weight)
updated_weight = (1 - self.eta) * current_weight + self.eta * clipped_weight
return self._clip_weight(updated_weight)
``` -/
def update_edge_weight (cfg : Config) (current_weight : ℚ) (accepted : Bool) : ℚ :=
  let reward := if accepted then cfg.r else -cfg.d
  let new_weight := current_weight + reward
  let clipped_weight := clip_weight cfg new_weight
  let updated_weight := (1 - cfg.eta) * current_weight + cfg.eta * clipped_weight
  clip_weight cfg updated_weight

/-- `EdgeLearningJob._build_tag_pairs`: all pairs `(tags[i], tags[j])` with
`i < j`, in the source's nested-loop order. -/
def build_tag_pairs : List String → List (String × String)
  | [] => []
  | t :: rest => (rest.map fun u => (t, u)) ++ build_tag_pairs rest

/-- Python `current_edges.get(key, 0.0)` on the insertion-ordered dict. -/
def dict_get (edges : List (String × ℚ)) (key : String) : ℚ :=
  match edges.find? fun e => e.1 = key with
  | some e => e.2
  | none => 0

/-- Python `current_edges[key] = w` on the insertion-ordered dict: replace in
place when the key is present, append otherwise. -/
def dict_set (edges : List (String × ℚ)) (key : String) (w : ℚ) : List (String × ℚ) :=
  if edges.any fun e => e.1 = key then
    edges.map fun e => if e.1 = key then (key, w) else e
  else
    edges ++ [(key, w)]

/-- Descending-by-weight comparison used by
`sorted(edges.items(), key=lambda x: x[1], reverse=True)`. -/
def wge (a b : String × ℚ) : Prop := b.2 ≤ a.2

instance : DecidableRel wge := fun a b => inferInstanceAs (Decidable (b.2 ≤ a.2))

instance : IsTotal (String × ℚ) wge := ⟨fun a b => (le_total b.2 a.2).imp id id⟩

instance : IsTrans (String × ℚ) wge := ⟨fun _ _ _ h h' => le_trans h' h⟩

/-- `EdgeLearningJob._upsert_edges`: sort the neighbor map descending by
weight (stable), truncate to `max_edges_per_tag`, and store the result as
the document's full edge list. -/
def upsert_edges (cfg : Config) (edges : List (String × ℚ)) : List (String × ℚ) :=
  (edges.insertionSort wge).take cfg.max_edges_per_tag

/-- A pack event as consumed by `EdgeLearningJob.run`: `event.get('tags', [])`
and `event.get('accepted', False)`.  `accepted` is an `Option` so that an
absent field can be distinguished from an explicit `False`. -/
structure PackEvent where
  tags : List String
  accepted : Option Bool

/-- The `tag_edges` collection of one organization: tag ↦ stored edge list. -/
abbrev DB : Type := String → List (String × ℚ)

/-- The body of the `for tag1, tag2 in pairs` loop of `EdgeLearningJob.run`:
update direction `tag1 → tag2`, write it back, count it, then direction
`tag2 → tag1`, write it back, count it. -/
def process_pair (cfg : Config) (db : DB) (updated : ℕ) (tag1 tag2 : String)
    (accepted : Bool) : DB × ℕ :=
  let current_edges := db tag1
  let current_weight := dict_get current_edges tag2
  let new_weight := update_edge_weight cfg current_weight accepted
  let current_edges' := dict_set current_edges tag2 new_weight
  let db' : DB := fun t => if t = tag1 then upsert_edges cfg current_edges' else db t
  let updated' := updated + 1
  let current_edges2 := db' tag2
  let current_weight2 := dict_get current_edges2 tag1
  let new_weight2 := update_edge_weight cfg current_weight2 accepted
  let current_edges2' := dict_set current_edges2 tag1 new_weight2
  let db'' : DB := fun t => if t = tag2 then upsert_edges cfg current_edges2' else db' t
  (db'', updated' + 1)

/-- The body of the `for event in events` loop of `EdgeLearningJob.run`:
skip events with fewer than two tags, otherwise process every pair of
`_build_tag_pairs(tags)` in order. -/
def process_event (cfg : Config) (dbu : DB × ℕ) (ev : PackEvent) : DB × ℕ :=
  let tags := ev.tags
  let accepted := ev.accepted.getD false
  if tags.length < 2 then dbu
  else (build_tag_pairs tags).foldl
    (fun s p => process_pair cfg s.1 s.2 p.1 p.2 accepted) dbu

/-- Processing of one organization in `EdgeLearningJob.run`: fold the event
loop over the events of the window, starting from `org_edges_updated = 0`. -/
def run_org (cfg : Config) (db : DB) (events : List PackEvent) : DB × ℕ :=
  events.foldl (process_event cfg) (db, 0)

/-- The summary dictionary returned by `EdgeLearningJob.run`
(`duration_seconds` is wall-clock I/O and is not carried). -/
structure Summary where
  updated : ℕ
  pruned : ℕ

/-- The whole `tag_edges` store: organization ↦ per-org `DB`. -/
abbrev GlobalDB : Type := String → DB

/-- `EdgeLearningJob.run`: process each organization in scope with its
window of events, accumulate `total_updated`, and return the summary with
`total_pruned`, which is initialized to `0` and never incremented. -/
def run (cfg : Config) (org_events : List (String × List PackEvent))
    (gdb : GlobalDB) : GlobalDB × Summary :=
  let res := org_events.foldl
    (fun (acc : GlobalDB × ℕ) oe =>
      let r := run_org cfg (acc.1 oe.1) oe.2
      (fun o => if o = oe.1 then r.1 else acc.1 o, acc.2 + r.2))
    (gdb, 0)
  (res.1, ⟨res.2, 0⟩)

/-!
## Specification-side formula (for the refinement claim about the update rule)

`spec_new_weight` is written from the spec's words, to be compared with
`update_edge_weight`, which is written from the source:
"reward = +r if the event is accepted else -d;
 target = clip(currentWeight + reward, 0, wMax);
 newWeight = clip((1-eta)*currentWeight + eta*target, 0, wMax)".
-/

/-- The spec's `clip(x, lo, hi)`. -/
def spec_clip (x lo hi : ℚ) : ℚ := max lo (min x hi)

/-- The spec's two-stage update formula, written from the spec text. -/
def spec_new_weight (eta r d wMax currentWeight : ℚ) (accepted : Bool) : ℚ :=
  let reward := if accepted then r else -d
  let target := spec_clip (currentWeight + reward) 0 wMax
  spec_clip ((1 - eta) * currentWeight + eta * target) 0 wMax

/-!
## Tiering (`app/services/tiering.py`)

`compute_hotness_score` uses wall-clock `datetime.utcnow()` and the real
`math.log`; the rebalancing sweep below is therefore parameterized by the
score function (`hotness_fn`), since no claim depends on the score's value,
only on how the sweep parses records, skips them, and derives tiers.

A raw MongoDB field value, as seen by `safe_parse_datetime`, is embedded as
`DateValue`: the outcome of the external `datetime.fromisoformat` call on a
string is carried in the `str` constructor, since the parse itself is a
library call outside the repository.  Datetimes are embedded as integers
(unix seconds); their value is irrelevant to every claim.
-/

/-- A raw document value passed to `safe_parse_datetime`. -/
inductive DateValue
  /-- Python-falsy value: `None` or the empty string (`if not date_value`). -/
  | falsy
  /-- A string; `parse` is the outcome of `datetime.fromisoformat` on it
  (`none` when that call raises). -/
  | str (parse : Option ℤ)
  /-- A `datetime` instance. -/
  | dt (t : ℤ)
  /-- A value of any other type (hits the `else` branch, logged). -/
  | other

/-- `safe_parse_datetime`: `None` for falsy input, the parse result for a
string (`None` when parsing raises), the value itself for a `datetime`,
`None` for any other type. -/
def safe_parse_datetime : DateValue → Option ℤ
  | .falsy => none
  | .str p => p
  | .dt t => some t
  | .other => none

/-- A raw document value passed to `safe_get_int`. -/
inductive IntValue
  /-- A Python `int`. -/
  | int (n : ℤ)
  /-- A Python `str`; `int(s)` either parses or raises `ValueError`. -/
  | str (s : String)
  /-- A Python `float`, embedded as an exact rational; `int(f)` truncates
  toward zero. -/
  | float (q : ℚ)
  /-- A value of any other type (including an absent field, i.e. `None`). -/
  | other

/-- Python `int(f)` on a float: truncation toward zero. -/
def int_trunc (q : ℚ) : ℤ := if 0 ≤ q then ⌊q⌋ else ⌈q⌉

/-- `safe_get_int`: an `int` is returned as-is, a `str` is parsed with
`int(...)` (falling back to the default when that raises), a `float` is
truncated, and anything else yields the default. -/
def safe_get_int (value : IntValue) (default : ℤ) : ℤ :=
  match value with
  | .int n => n
  | .str s => (s.toInt?).getD default
  | .float q => int_trunc q
  | .other => default

/-- `determine_tier`: `>= 5.0 → 1` (hot), `>= 1.0 → 2` (warm),
else `3` (cold). -/
def determine_tier (hotness_score : ℚ) : ℤ :=
  if hotness_score ≥ 5 then 1
  else if hotness_score ≥ 1 then 2
  else 3

/-- One record of the tag-metrics view, as read by `rebalance_all_tags`:
the raw `metrics.createdAt`, `metrics.lastUsedAt`, `metrics.lastPromotedAt`,
`metrics.useCount` and `meta.tier` fields of the document. -/
structure TagRecord where
  tag : String
  createdAt : DateValue
  lastUsedAt : DateValue
  lastPromotedAt : DateValue
  useCount : IntValue
  tier : IntValue

/-- Outcome of the per-record body of `rebalance_all_tags`. -/
inductive RecordOutcome
  /-- The record was skipped (`continue`) for missing/unparseable dates;
  `total_processed` is not incremented. -/
  | skipped
  /-- The record was processed; `update` is the tier update issued through
  `post_tier_update` (`none` when `new_tier == current_tier`). -/
  | processed (update : Option (String × ℤ))
deriving DecidableEq

/-- The body of the `for tag_data in tags` loop of `rebalance_all_tags`:
parse the dates defensively, default `useCount` to 1 on parse failure, skip
the record when either required date is missing, otherwise compute the
hotness score, derive the new tier, and issue an update when it differs
from the current tier (which defaults to 2). -/
def process_tag_record (hotness_fn : ℤ → ℤ → ℤ → Option ℤ → ℚ)
    (record : TagRecord) : RecordOutcome :=
  let created_at := safe_parse_datetime record.createdAt
  let last_used_at := safe_parse_datetime record.lastUsedAt
  let last_promoted_at := safe_parse_datetime record.lastPromotedAt
  let use_count := safe_get_int record.useCount 1
  match created_at, last_used_at with
  | some c, some u =>
    let hotness := hotness_fn use_count c u last_promoted_at
    let new_tier := determine_tier hotness
    let current_tier := safe_get_int record.tier 2
    if new_tier ≠ current_tier then .processed (some (record.tag, new_tier))
    else .processed none
  | _, _ => .skipped

/-- `rebalance_all_tags`, folded over the full paginated record stream:
returns `total_processed` and the sequence of tier updates issued. -/
def rebalance_all_tags (hotness_fn : ℤ → ℤ → ℤ → Option ℤ → ℚ)
    (records : List TagRecord) : ℕ × List (String × ℤ) :=
  records.foldl
    (fun acc record =>
      match process_tag_record hotness_fn record with
      | .skipped => acc
      | .processed none => (acc.1 + 1, acc.2)
      | .processed (some u) => (acc.1 + 1, acc.2 ++ [u]))
    (0, [])

/-- Whether `a` and `b` denote the same unordered pair. -/
def same_unordered (a b : String × String) : Prop :=
  (a.1 = b.1 ∧ a.2 = b.2) ∨ (a.1 = b.2 ∧ a.2 = b.1)

instance : DecidableRel same_unordered := fun a b =>
  inferInstanceAs (Decidable ((a.1 = b.1 ∧ a.2 = b.2) ∨ (a.1 = b.2 ∧ a.2 = b.1)))

/-- The `int(...)` conversion in `safe_get_int` fails (raises or the value
has an unconvertible type), so the default is used. -/
def int_parse_failed : IntValue → Prop
  | .str s => s.toInt? = none
  | .other => True
  | _ => False

/-!
## General lemmas about the embedded operations
-/

/-- Both components of a generated pair come from the tag list. -/
theorem mem_of_mem_build_tag_pairs {p : String × String} :
    ∀ {l : List String}, p ∈ build_tag_pairs l → p.1 ∈ l ∧ p.2 ∈ l := by
  intro l
  induction l with
  | nil => intro h; simp [build_tag_pairs] at h
  | cons t rest ih =>
    intro h
    simp only [build_tag_pairs, List.mem_append, List.mem_map] at h
    rcases h with ⟨u, hu, hp⟩ | h
    · subst hp; exact ⟨List.mem_cons_self .., List.mem_cons_of_mem _ hu⟩
    · exact ⟨List.mem_cons_of_mem _ (ih h).1, List.mem_cons_of_mem _ (ih h).2⟩

/-- On a duplicate-free tag list, every generated pair has distinct
components. -/
theorem build_tag_pairs_ne {l : List String} (hl : l.Nodup) :
    ∀ p ∈ build_tag_pairs l, p.1 ≠ p.2 := by
  induction l with
  | nil => intro p hp; simp [build_tag_pairs] at hp
  | cons t rest ih =>
    intro p hp
    rcases List.nodup_cons.1 hl with ⟨ht, hrest⟩
    simp only [build_tag_pairs, List.mem_append, List.mem_map] at hp
    rcases hp with ⟨u, hu, hp⟩ | hp
    · subst hp
      intro h
      have h' : t = u := h
      exact ht (h' ▸ hu)
    · exact ih hrest p hp

/-- On a duplicate-free tag list, no unordered pair is generated twice. -/
theorem build_tag_pairs_pairwise {l : List String} (hl : l.Nodup) :
    (build_tag_pairs l).Pairwise (fun p q => ¬ same_unordered p q) := by
  induction l with
  | nil => simp [build_tag_pairs]
  | cons t rest ih =>
    rcases List.nodup_cons.1 hl with ⟨ht, hrest⟩
    simp only [build_tag_pairs]
    rw [List.pairwise_append]
    refine ⟨?_, ih hrest, ?_⟩
    · rw [List.pairwise_map]
      refine List.Pairwise.imp_of_mem (fun {u v} hu hv huv hsame => ?_) hrest
      rcases hsame with ⟨_, h2⟩ | ⟨h1, _⟩
      · exact huv h2
      · have h1' : t = v := h1
        exact ht (h1' ▸ hv)
    · intro p hp q hq hsame
      rcases List.mem_map.1 hp with ⟨u, _, hpu⟩
      subst hpu
      have hq1 := (mem_of_mem_build_tag_pairs hq).1
      have hq2 := (mem_of_mem_build_tag_pairs hq).2
      rcases hsame with ⟨h1, _⟩ | ⟨h1, _⟩
      · have h1' : t = q.1 := h1
        exact ht (h1' ▸ hq1)
      · have h1' : t = q.2 := h1
        exact ht (h1' ▸ hq2)

/-- Every pair of distinct elements of the tag list is generated in one of
its two orientations. -/
theorem build_tag_pairs_complete {l : List String} :
    ∀ a ∈ l, ∀ b ∈ l, a ≠ b →
      (a, b) ∈ build_tag_pairs l ∨ (b, a) ∈ build_tag_pairs l := by
  induction l with
  | nil => intro a ha; simp at ha
  | cons t rest ih =>
    intro a ha b hb hab
    simp only [List.mem_cons] at ha hb
    simp only [build_tag_pairs, List.mem_append, List.mem_map]
    rcases ha with rfl | ha
    · rcases hb with rfl | hb
      · exact absurd rfl hab
      · exact Or.inl (Or.inl ⟨b, hb, rfl⟩)
    · rcases hb with rfl | hb
      · exact Or.inr (Or.inl ⟨a, ha, rfl⟩)
      · rcases ih a ha b hb hab with h | h
        · exact Or.inl (Or.inr h)
        · exact Or.inr (Or.inr h)

/-- Writing a key into the insertion-ordered dict puts the pair in it. -/
theorem mem_dict_set (edges : List (String × ℚ)) (key : String) (w : ℚ) :
    (key, w) ∈ dict_set edges key w := by
  unfold dict_set
  by_cases h : edges.any fun e => e.1 = key
  · rw [if_pos h]
    rcases List.any_eq_true.1 h with ⟨e, he, hek⟩
    refine List.mem_map.2 ⟨e, he, ?_⟩
    rw [if_pos (by exact of_decide_eq_true hek)]
  · rw [if_neg h]
    exact List.mem_append_right _ (List.mem_singleton.2 rfl)

/-- Writing a key into the dict grows it by at most one entry. -/
theorem length_dict_set (edges : List (String × ℚ)) (key : String) (w : ℚ) :
    (dict_set edges key w).length ≤ edges.length + 1 := by
  unfold dict_set
  by_cases h : edges.any fun e => e.1 = key
  · rw [if_pos h, List.length_map]; omega
  · rw [if_neg h, List.length_append, List.length_singleton]

/-- When the neighbor map fits the top-M budget, the upsert keeps every
entry (sorting permutes, truncation drops nothing). -/
theorem mem_upsert_edges {cfg : Config} {edges : List (String × ℚ)}
    {x : String × ℚ} (hlen : edges.length ≤ cfg.max_edges_per_tag)
    (hx : x ∈ edges) : x ∈ upsert_edges cfg edges := by
  unfold upsert_edges
  rw [List.take_of_length_le]
  · exact (List.perm_insertionSort wge edges).mem_iff.2 hx
  · rw [(List.perm_insertionSort wge edges).length_eq]; exact hlen

/-!
## The claims
-/

/-- C1: every edge update follows the two-stage formula
`reward = +r` if accepted else `-d`; `target = clip(w + reward, 0, wMax)`;
`new = clip((1-eta)*w + eta*target, 0, wMax)`; with `w = 0.5`, `eta = 0.1`,
`r = 0.05`, `d = 0.02`, `wMax = 1.0` an accepted event yields `0.505` and a
rejected one `0.498`. -/
theorem C1_update_edge_weight_formula :
    (∀ (cfg : Config) (w : ℚ) (acc : Bool),
      update_edge_weight cfg w acc
        = spec_new_weight cfg.eta cfg.r cfg.d cfg.w_max w acc) ∧
    update_edge_weight ⟨0.1, 0.05, 0.02, 1, 32⟩ 0.5 true = 0.505 ∧
    update_edge_weight ⟨0.1, 0.05, 0.02, 1, 32⟩ 0.5 false = 0.498 := by
  refine ⟨fun cfg w acc => rfl, ?_, ?_⟩ <;>
    norm_num [update_edge_weight, clip_weight, min_def, max_def]

/-- C3: from a current weight in `[0, wMax]`, with `r, d ≥ 0` and
`eta ∈ [0, 1]`, the updated weight stays in `[0, wMax]`. -/
theorem C3_weight_in_range (cfg : Config) (w : ℚ) (acc : Bool)
    (hw0 : 0 ≤ w) (hwm : w ≤ cfg.w_max) (hr : 0 ≤ cfg.r) (hd : 0 ≤ cfg.d)
    (he0 : 0 ≤ cfg.eta) (he1 : cfg.eta ≤ 1) :
    0 ≤ update_edge_weight cfg w acc ∧
      update_edge_weight cfg w acc ≤ cfg.w_max := by
  have hmax : (0 : ℚ) ≤ cfg.w_max := le_trans hw0 hwm
  unfold update_edge_weight clip_weight
  exact ⟨le_max_left _ _, max_le hmax (min_le_right _ _)⟩

/-- Witness for C3 at the default configuration and weight 0.5. -/
theorem C3_weight_in_range_witness :
    0 ≤ update_edge_weight default_config 0.5 true ∧
      update_edge_weight default_config 0.5 true ≤ default_config.w_max :=
  C3_weight_in_range default_config 0.5 true (by norm_num)
    (by norm_num [default_config]) (by norm_num [default_config])
    (by norm_num [default_config]) (by norm_num [default_config])
    (by norm_num [default_config])

/-- C5: `determine_tier` maps hotness `≥ 5` to tier 1, `[1, 5)` to tier 2,
`< 1` to tier 3 (band lower bounds inclusive); in particular
`5.0 → 1`, `4.999 → 2`, `1.0 → 2`, `0.999 → 3`. -/
theorem C5_determine_tier (h : ℚ) :
    (5 ≤ h → determine_tier h = 1) ∧
    (1 ≤ h → h < 5 → determine_tier h = 2) ∧
    (h < 1 → determine_tier h = 3) ∧
    determine_tier 5 = 1 ∧ determine_tier 4.999 = 2 ∧
    determine_tier 1 = 2 ∧ determine_tier 0.999 = 3 := by
  refine ⟨fun h5 => ?_, fun h1 h5 => ?_, fun h1 => ?_, ?_, ?_, ?_, ?_⟩
  · simp only [determine_tier]; rw [if_pos (by linarith)]
  · simp only [determine_tier]; rw [if_neg (by linarith), if_pos (by linarith)]
  · simp only [determine_tier]; rw [if_neg (by linarith), if_neg (by linarith)]
  · norm_num [determine_tier]
  · norm_num [determine_tier]
  · norm_num [determine_tier]
  · norm_num [determine_tier]

/-- Witness for C5 at the four boundary scores. -/
theorem C5_determine_tier_witness :
    determine_tier 5 = 1 ∧ determine_tier 4.999 = 2 ∧
      determine_tier 1 = 2 ∧ determine_tier 0.999 = 3 :=
  ⟨(C5_determine_tier 5).1 (by norm_num),
   (C5_determine_tier 4.999).2.1 (by norm_num) (by norm_num),
   (C5_determine_tier 1).2.1 (by norm_num) (by norm_num),
   (C5_determine_tier 0.999).2.2.1 (by norm_num)⟩

/-- C9: the summary returned by `EdgeLearningJob.run` always reports
`pruned = 0`, whatever the scope, events, or truncations. -/
theorem C9_run_pruned_zero (cfg : Config)
    (org_events : List (String × List PackEvent)) (gdb : GlobalDB) :
    (run cfg org_events gdb).2.pruned = 0 := rfl

/-- Core of the strict-increase direction: the clipped EMA blend toward the
clipped reward-shifted target strictly exceeds `w` when `w < wMax` and the
reward is positive. -/
theorem strict_increase_core (eta wMax w rw : ℚ) (heta : 0 < eta)
    (hw : w < wMax) (hr : 0 < rw) :
    w < max 0 (min ((1 - eta) * w + eta * max 0 (min (w + rw) wMax)) wMax) := by
  rcases lt_or_le w 0 with hw0 | hw0
  · exact lt_of_lt_of_le hw0 (le_max_left _ _)
  · have htarget : w < max 0 (min (w + rw) wMax) :=
      lt_of_lt_of_le (lt_min (by linarith) hw) (le_max_right _ _)
    have hpre : w < (1 - eta) * w + eta * max 0 (min (w + rw) wMax) := by
      nlinarith [mul_pos heta (sub_pos.2 htarget)]
    exact lt_of_lt_of_le (lt_min hpre hw) (le_max_right _ _)

/-- Core of the strict-decrease direction: the clipped EMA blend toward the
clipped penalty-shifted target is strictly below `w` when `w > 0` and the
penalty is positive. -/
theorem strict_decrease_core (eta wMax w dw : ℚ) (heta : 0 < eta)
    (hw : 0 < w) (hd : 0 < dw) :
    max 0 (min ((1 - eta) * w + eta * max 0 (min (w + -dw) wMax)) wMax) < w := by
  have htarget : max 0 (min (w + -dw) wMax) < w :=
    max_lt hw (lt_of_le_of_lt (min_le_left _ _) (by linarith))
  have hpre : (1 - eta) * w + eta * max 0 (min (w + -dw) wMax) < w := by
    nlinarith [mul_pos heta (sub_pos.2 htarget)]
  exact max_lt hw (lt_of_le_of_lt (min_le_left _ _) hpre)

/-- C7: with a positive learning rate, an accepted event strictly increases
a weight below `wMax` when `r > 0`, and a rejected event strictly decreases
a positive weight when `d > 0`. -/
theorem C7_strict_update (cfg : Config) (w : ℚ) (heta : 0 < cfg.eta) :
    (w < cfg.w_max → 0 < cfg.r → w < update_edge_weight cfg w true) ∧
    (0 < w → 0 < cfg.d → update_edge_weight cfg w false < w) := by
  constructor
  · intro hw hr
    have h := strict_increase_core cfg.eta cfg.w_max w cfg.r heta hw hr
    simpa [update_edge_weight, clip_weight] using h
  · intro hw hd
    have h := strict_decrease_core cfg.eta cfg.w_max w cfg.d heta hw hd
    simpa [update_edge_weight, clip_weight] using h

/-- Witness for C7 at the default configuration and weight 0.5. -/
theorem C7_strict_update_witness :
    ((1 : ℚ)/2 < update_edge_weight default_config (1/2) true) ∧
    (update_edge_weight default_config (1/2) false < 1/2) :=
  ⟨(C7_strict_update default_config (1/2) (by norm_num [default_config])).1
      (by norm_num [default_config]) (by norm_num [default_config]),
   (C7_strict_update default_config (1/2) (by norm_num [default_config])).2
      (by norm_num) (by norm_num [default_config])⟩

/-- C4: after every write, the stored edge list has length at most
`max_edges_per_tag` and is sorted by weight descending; writing the 4-edge
map `[0.8, 0.6, 0.4, 0.2]` with `max_edges_per_tag = 3` keeps exactly 3
edges and drops the lowest-weight one. -/
theorem C4_upsert_invariant (cfg : Config) (edges : List (String × ℚ)) :
    (upsert_edges cfg edges).length ≤ cfg.max_edges_per_tag ∧
    List.Sorted wge (upsert_edges cfg edges) ∧
    upsert_edges ⟨0.05, 0.03, 0.01, 1, 3⟩
        [("a", 0.8), ("b", 0.6), ("c", 0.4), ("d", 0.2)]
      = [("a", 0.8), ("b", 0.6), ("c", 0.4)] ∧
    ("d", (0.2 : ℚ)) ∉ upsert_edges ⟨0.05, 0.03, 0.01, 1, 3⟩
        [("a", 0.8), ("b", 0.6), ("c", 0.4), ("d", 0.2)] := by
  refine ⟨?_, ?_, ?_, ?_⟩
  · unfold upsert_edges
    rw [List.length_take]
    exact min_le_left _ _
  · exact List.Pairwise.sublist (List.take_sublist _ _)
      (List.sorted_insertionSort wge edges)
  · norm_num [upsert_edges, wge, List.insertionSort, List.orderedInsert]
  · norm_num [upsert_edges, wge, List.insertionSort, List.orderedInsert]

/-- C2 fails as stated: an event whose tag list repeats a tag is not
skipped, yet its only generated pair has equal components, so the pairs
processed are not the unordered pairs with distinct components. -/
theorem C2_counterexample :
    build_tag_pairs ["x", "x"] = [("x", "x")] ∧
    (∀ p ∈ build_tag_pairs ["x", "x"], p.1 = p.2) ∧
    (process_event default_config (fun _ => [], 0)
      ⟨["x", "x"], some true⟩).2 = 2 := by
  refine ⟨rfl, ?_, rfl⟩
  decide

/-- C2 (amended): an event with fewer than 2 tags produces no update at
all; and when the event's tags are pairwise distinct, the generated pairs
are exactly the unordered pairs of distinct tags, without repeats. -/
theorem C2_pairs (cfg : Config) (db : DB) (c : ℕ) (tags : List String)
    (acc : Option Bool) (hnd : tags.Nodup) :
    (tags.length < 2 → process_event cfg (db, c) ⟨tags, acc⟩ = (db, c)) ∧
    (∀ p ∈ build_tag_pairs tags, p.1 ≠ p.2 ∧ p.1 ∈ tags ∧ p.2 ∈ tags) ∧
    (build_tag_pairs tags).Pairwise (fun p q => ¬ same_unordered p q) ∧
    (∀ a ∈ tags, ∀ b ∈ tags, a ≠ b →
      (a, b) ∈ build_tag_pairs tags ∨ (b, a) ∈ build_tag_pairs tags) := by
  refine ⟨fun hlen => ?_, fun p hp => ?_, build_tag_pairs_pairwise hnd,
    build_tag_pairs_complete⟩
  · simp [process_event, hlen]
  · exact ⟨build_tag_pairs_ne hnd p hp, (mem_of_mem_build_tag_pairs hp).1,
      (mem_of_mem_build_tag_pairs hp).2⟩

/-- Witness for the amended C2 on the two-tag event `["a", "b"]`. -/
theorem C2_pairs_witness :
    ((["a", "b"] : List String).length < 2 →
      process_event default_config (fun _ => [], 0) ⟨["a", "b"], some true⟩
        = (fun _ => [], 0)) ∧
    (∀ p ∈ build_tag_pairs ["a", "b"],
      p.1 ≠ p.2 ∧ p.1 ∈ (["a", "b"] : List String) ∧
        p.2 ∈ (["a", "b"] : List String)) ∧
    (build_tag_pairs ["a", "b"]).Pairwise (fun p q => ¬ same_unordered p q) ∧
    (∀ a ∈ (["a", "b"] : List String), ∀ b ∈ (["a", "b"] : List String),
      a ≠ b → (a, b) ∈ build_tag_pairs ["a", "b"] ∨
        (b, a) ∈ build_tag_pairs ["a", "b"]) :=
  C2_pairs default_config (fun _ => []) 0 ["a", "b"] (some true) (by decide)

/-- C6: an event with tags `[A, B]` processes exactly the pair `(A, B)`;
each direction adds 1 to the updated count (so the pair contributes 2), and
both the `A → B` and the `B → A` edge receive the EMA-updated weight (the
top-M budget hypotheses ensure truncation does not discard them). -/
theorem C6_bidirectional_count (cfg : Config) (db : DB) (c : ℕ)
    (A B : String) (acc : Bool) (hab : A ≠ B)
    (hA : (db A).length < cfg.max_edges_per_tag)
    (hB : (db B).length < cfg.max_edges_per_tag) :
    process_event cfg (db, c) ⟨[A, B], some acc⟩
      = process_pair cfg db c A B acc ∧
    (process_pair cfg db c A B acc).2 = c + 2 ∧
    (B, update_edge_weight cfg (dict_get (db A) B) acc)
      ∈ (process_pair cfg db c A B acc).1 A ∧
    (A, update_edge_weight cfg (dict_get (db B) A) acc)
      ∈ (process_pair cfg db c A B acc).1 B := by
  have h1 : (process_pair cfg db c A B acc).1 A
      = upsert_edges cfg
          (dict_set (db A) B (update_edge_weight cfg (dict_get (db A) B) acc)) := by
    simp [process_pair, hab]
  have h2 : (process_pair cfg db c A B acc).1 B
      = upsert_edges cfg
          (dict_set (db B) A (update_edge_weight cfg (dict_get (db B) A) acc)) := by
    simp [process_pair, Ne.symm hab]
  refine ⟨rfl, rfl, ?_, ?_⟩
  · rw [h1]
    exact mem_upsert_edges (le_trans (length_dict_set _ _ _) hA)
      (mem_dict_set _ _ _)
  · rw [h2]
    exact mem_upsert_edges (le_trans (length_dict_set _ _ _) hB)
      (mem_dict_set _ _ _)

/-- Witness for C6 on the event `["a", "b"]` over an empty store. -/
theorem C6_bidirectional_count_witness :
    process_event default_config (fun _ => [], 0) ⟨["a", "b"], some true⟩
      = process_pair default_config (fun _ => []) 0 "a" "b" true ∧
    (process_pair default_config (fun _ => []) 0 "a" "b" true).2 = 2 ∧
    ("b", update_edge_weight default_config 0 true)
      ∈ (process_pair default_config (fun _ => []) 0 "a" "b" true).1 "a" ∧
    ("a", update_edge_weight default_config 0 true)
      ∈ (process_pair default_config (fun _ => []) 0 "a" "b" true).1 "b" :=
  C6_bidirectional_count default_config (fun _ => []) 0 "a" "b" true
    (by decide) (by decide) (by decide)

/-- C8: a record whose `createdAt` or `lastUsedAt` is missing or
unparseable is skipped and the sweep continues over the remaining records;
and whenever `useCount` fails to parse, it defaults to 1. -/
theorem C8_defensive (hotness_fn : ℤ → ℤ → ℤ → Option ℤ → ℚ)
    (pre post : List TagRecord) (record bad_count : TagRecord)
    (hbad : safe_parse_datetime record.createdAt = none ∨
      safe_parse_datetime record.lastUsedAt = none)
    (hcount : int_parse_failed bad_count.useCount) :
    process_tag_record hotness_fn record = .skipped ∧
    rebalance_all_tags hotness_fn (pre ++ record :: post)
      = rebalance_all_tags hotness_fn (pre ++ post) ∧
    safe_get_int bad_count.useCount 1 = 1 ∧
    process_tag_record hotness_fn bad_count
      = process_tag_record hotness_fn { bad_count with useCount := .int 1 } := by
  have hskip : process_tag_record hotness_fn record = .skipped := by
    rcases hbad with h | h
    · simp [process_tag_record, h]
    · rcases h' : safe_parse_datetime record.createdAt with _ | cval
      · simp [process_tag_record, h']
      · simp [process_tag_record, h, h']
  have hcnt1 : safe_get_int bad_count.useCount 1 = 1 := by
    rcases hc : bad_count.useCount with n | s | q | _
    · rw [hc] at hcount; simp [int_parse_failed] at hcount
    · rw [hc] at hcount
      simp only [int_parse_failed] at hcount
      simp [safe_get_int, hcount]
    · rw [hc] at hcount; simp [int_parse_failed] at hcount
    · simp [safe_get_int]
  have hfold : rebalance_all_tags hotness_fn (pre ++ record :: post)
      = rebalance_all_tags hotness_fn (pre ++ post) := by
    unfold rebalance_all_tags
    rw [List.foldl_append, List.foldl_append, List.foldl_cons]
    congr 1
    simp [hskip]
  have hrec : process_tag_record hotness_fn bad_count
      = process_tag_record hotness_fn { bad_count with useCount := .int 1 } := by
    simp only [process_tag_record]
    simp only [hcnt1]
    rfl
  exact ⟨hskip, hfold, hcnt1, hrec⟩

/-- Witness for C8 on a record with a missing `createdAt` and a `useCount`
of an unconvertible type. -/
theorem C8_defensive_witness :
    process_tag_record (fun _ _ _ _ => 0)
      ⟨"t", .falsy, .falsy, .falsy, .other, .other⟩ = .skipped ∧
    rebalance_all_tags (fun _ _ _ _ => 0)
        ([] ++ ⟨"t", .falsy, .falsy, .falsy, .other, .other⟩ :: [])
      = rebalance_all_tags (fun _ _ _ _ => 0) ([] ++ []) ∧
    safe_get_int IntValue.other 1 = 1 ∧
    process_tag_record (fun _ _ _ _ => 0)
        ⟨"t", .falsy, .falsy, .falsy, .other, .other⟩
      = process_tag_record (fun _ _ _ _ => 0)
        ⟨"t", .falsy, .falsy, .falsy, .int 1, .other⟩ :=
  C8_defensive (fun _ _ _ _ => 0) [] []
    ⟨"t", .falsy, .falsy, .falsy, .other, .other⟩
    ⟨"t", .falsy, .falsy, .falsy, .other, .other⟩
    (Or.inl rfl) trivial

/-- C10: an event whose `accepted` field is absent is processed exactly as
one with `accepted = false`, and a rejected update applies the penalty `-d`
inside the EMA formula. -/
theorem C10_absent_accepted_is_rejection (cfg : Config) (db : DB) (c : ℕ)
    (tags : List String) :
    process_event cfg (db, c) ⟨tags, none⟩
      = process_event cfg (db, c) ⟨tags, some false⟩ ∧
    ∀ w : ℚ, update_edge_weight cfg w false
      = clip_weight cfg
          ((1 - cfg.eta) * w + cfg.eta * clip_weight cfg (w + -cfg.d)) :=
  ⟨rfl, fun _ => rfl⟩

end MME
